import Mathlib

/-!
Shallow embedding of the galahad-linux-control render/encode/transmit
pipeline: the USB transport framer (`usb_device.py`), the RGB color
command builder, the background loader and its cache
(`image_processor.py`), the CPU smoothing filter, and the two animation
engines (`presets.py`).  Python integers are modelled as `Nat`/`Int`
(with explicit `% 2^w` masking where the code masks), floats as exact
rationals, byte buffers as `List Nat`.
-/

namespace GLC

/-! ### Transport framer (`usb_device.send_h264_frame`)

Protocol constants from `config.USBProtocol` / `config.VideoPacket`:
`CHUNK_SIZE = 1013`, `MAX_PACKET_SIZE = 1024`, header bytes `0x02 0x0D`,
header layout: bytes 2-5 total length BE, 6-8 sequence BE, 9-10 chunk
length BE, payload at 11. -/

/-- One 1024-byte video packet, exactly as the loop body of
`send_h264_frame` builds it: `bytearray(1024)` (all zero), then the
eleven header bytes are assigned (`(x >> s) & 0xFF` becomes
`x >>> s &&& 255`), then the chunk is spliced in at offset 11. -/
def buildVideoPacket (total seq : ℕ) (chunk : List ℕ) : List ℕ :=
  [2, 13,
   total >>> 24 &&& 255, total >>> 16 &&& 255, total >>> 8 &&& 255, total &&& 255,
   seq >>> 16 &&& 255, seq >>> 8 &&& 255, seq &&& 255,
   chunk.length >>> 8 &&& 255, chunk.length &&& 255]
  ++ chunk ++ List.replicate (1024 - 11 - chunk.length) 0

/-- The `while offset < len(h264_data)` loop of `send_h264_frame`,
with the suffix `rest = h264_data[offset:]` as the recursion argument:
each iteration takes `chunk = rest[:1013]` (i.e. length
`min(1013, len(rest))`), emits one packet, and continues on
`rest[1013:]` with `seq + 1`.  The returned list is the sequence of
`endpoint.write` payloads in emission order. -/
def sendLoop (total seq : ℕ) (rest : List ℕ) : List (List ℕ) :=
  if h : rest = [] then []
  else
    buildVideoPacket total seq (rest.take 1013) :: sendLoop total (seq + 1) (rest.drop 1013)
termination_by rest.length
decreasing_by
  simp only [List.length_drop]
  have : 0 < rest.length := List.length_pos.mpr h
  omega

/-- `send_h264_frame`: frame the whole payload, starting at
`offset = 0`, `seq = 0`; the total-length field of every packet is
`len(h264_data)`. -/
def send_h264_frame (h264_data : List ℕ) : List (List ℕ) :=
  sendLoop h264_data.length 0 h264_data

/-- Big-endian decoding of two adjacent bytes of a packet. -/
def decodeBE2 (pkt : List ℕ) (i : ℕ) : ℕ :=
  256 * pkt.getD i 0 + pkt.getD (i + 1) 0

/-- Big-endian decoding of three adjacent bytes of a packet. -/
def decodeBE3 (pkt : List ℕ) (i : ℕ) : ℕ :=
  65536 * pkt.getD i 0 + 256 * pkt.getD (i + 1) 0 + pkt.getD (i + 2) 0

/-- Big-endian decoding of four adjacent bytes of a packet. -/
def decodeBE4 (pkt : List ℕ) (i : ℕ) : ℕ :=
  16777216 * pkt.getD i 0 + 65536 * pkt.getD (i + 1) 0 +
    256 * pkt.getD (i + 2) 0 + pkt.getD (i + 3) 0

/-- The chunk payload carried by a packet: the `L` bytes starting at
offset 11, where `L` is the chunk-length field at bytes 9-10. -/
def chunkPayload (pkt : List ℕ) : List ℕ :=
  (pkt.drop 11).take (decodeBE2 pkt 9)

/-! ### RGB color command (`usb_device.set_rgb_color`) -/

/-- `set_rgb_color` packet: `bytearray(RGBPacket.SIZE) = bytearray(64)`
(all zero), then the assignments in source order: `packet[0] = 0x01`,
`packet[1] = 0x83`, `packet[5] = 19`, `packet[6..9] = 00 03 04 00`,
`packet[10..12] = r, g, b`. -/
def set_rgb_color (r g b : ℕ) : List ℕ :=
  ((((((((((List.replicate 64 0).set 0 0x01).set 1 0x83).set 5 19).set 6 0).set 7 3).set
    8 4).set 9 0).set 10 r).set 11 g).set 12 b

/-! ### CPU usage smoothing (`image_processor._get_cpu_metrics`) -/

/-- One reading of the `_last_cpu_percent` filter: the module global is
wholesale-replaced by the raw sample when it currently equals `0.0`,
and otherwise updated by `0.7 * old + 0.3 * new` (float constants
modelled as exact rationals). -/
def cpuSmoothStep (last raw : ℚ) : ℚ :=
  if last = 0 then raw else 7 / 10 * last + 3 / 10 * raw

/-- The filter state after a sequence of raw readings, starting from
the module-level initial value `_last_cpu_percent = 0.0`; the state
persists across composer invocations (one process). -/
def cpuSmoothTrace (raws : List ℚ) : ℚ := raws.foldl cpuSmoothStep 0

/-! ### Heartbeat preset (`presets.HeartbeatPreset._calculate_pulse_intensity`) -/

/-- `self.segment_count` of `HeartbeatPreset`. -/
def segment_count : ℕ := 16

/-- `_calculate_pulse_intensity(segment_idx, cpu_load)`, with
`math.sin` abstracted as an oracle `sinq` and floats as exact
rationals; `fps` and `frame_count` are the instance fields used by the
phase computation. -/
def calculate_pulse_intensity (sinq : ℚ → ℚ) (fps : ℚ) (frame_count : ℕ)
    (segment_idx : ℕ) (cpu_load : ℚ) : ℚ :=
  let base_intensity := min (12 / 10) (cpu_load / 80)
  let pulse_speed := 2 + cpu_load / 100 * 4
  let pulse_phase := (frame_count : ℚ) / fps * pulse_speed
  let wave_offset := (segment_idx : ℚ) * (4 / 10)
  let pulse_wave := (sinq (pulse_phase + wave_offset) + 1) / 2
  let center_boost := 1 - (segment_idx : ℚ) / ((segment_count : ℚ) / 2) * (4 / 10)
  max 0 (min 1 (base_intensity * pulse_wave * center_boost))

/-- `clamp01(x) = max(0, min(1, x))`. -/
def clamp01 (x : ℚ) : ℚ := max 0 (min 1 x)

/-- The spec formula for the heartbeat intensity, written from the
claim text: `clamp01(min(1.2, load/80) · pulseWave(i) · centerBoost(i))`
with `pulseWave(i) = (sin(phase + 0.4·i) + 1)/2`,
`phase = (frameCount/fps)·pulseSpeed`, `pulseSpeed = 2 + (load/100)·4`,
`centerBoost(i) = 1 − (i/8)·0.4`. -/
def pulseIntensitySpec (sinq : ℚ → ℚ) (fps : ℚ) (frameCount : ℕ)
    (load : ℚ) (i : ℕ) : ℚ :=
  clamp01 (min (12 / 10) (load / 80) *
    ((sinq ((frameCount : ℚ) / fps * (2 + load / 100 * 4) + 4 / 10 * (i : ℚ)) + 1) / 2) *
    (1 - (i : ℚ) / 8 * (4 / 10)))

/-! ### Matrix preset column state (`presets.MatrixPreset.render`) -/

/-- One entry of `self.columns`: `y` and `speed` are floats (modelled
as exact rationals), `char` a glyph, `brightness` and `trail_length`
ints. -/
structure MColumn where
  y : ℚ
  char : Char
  speed : ℚ
  brightness : ℕ
  trail_length : ℕ
deriving DecidableEq

instance : Inhabited MColumn := ⟨⟨0, 'a', 0, 255, 5⟩⟩

/-- The per-column update step at the top of `MatrixPreset.render`:
`col['y'] += col['speed']`; then, only if the advanced `y` exceeds
`self.height + 100 = 580`, the column is reset with `col['y'] = -200`,
`col['char'] = random.choice(self.char_pool)` and
`col['speed'] = random.uniform(1.5, 3.0)` — the RNG draws the reset
would consume are supplied as the oracle arguments `rand_char`,
`rand_speed`.  `brightness` and `trail_length` are never written. -/
def updateColumn (rand_char : Char) (rand_speed : ℚ) (c : MColumn) : MColumn :=
  let y := c.y + c.speed
  if y > 580 then { c with y := -200, char := rand_char, speed := rand_speed }
  else { c with y := y }

/-- The reset as the claim describes it, for comparison with the code:
on overflow the new `y` is itself a fresh random draw `rand_y` in
`[-200, 0)` rather than a constant. -/
def updateColumnSpec (rand_y : ℚ) (rand_char : Char) (rand_speed : ℚ)
    (c : MColumn) : MColumn :=
  let y := c.y + c.speed
  if y > 580 then { c with y := rand_y, char := rand_char, speed := rand_speed }
  else { c with y := y }

/-- The column pass of `render`: each column `i` in
`range(self.col_count)` is updated independently; the draws column `i`
would consume are supplied by per-index oracles. -/
def updateColumns (rand_char : ℕ → Char) (rand_speed : ℕ → ℚ)
    (cols : List MColumn) : List MColumn :=
  cols.mapIdx fun i c => updateColumn (rand_char i) (rand_speed i) c

/-! ### Background loader (`image_processor.load_background`) -/

/-- Pillow image modes the loader can see; `convert("RGB")` always
lands in `rgb` (3 channels, no alpha). -/
inductive PixMode
  | rgb
  | rgba
  | grey
  | pal
deriving DecidableEq

/-- Model of a Pillow image for the size/mode reasoning of
`load_background`: width, height, channel mode. -/
structure PILImage where
  width : ℕ
  height : ℕ
  mode : PixMode
deriving DecidableEq

instance : Inhabited PILImage := ⟨⟨480, 480, PixMode.rgb⟩⟩

/-- Model of Pillow `img.convert("RGB")`. -/
def convertRGB (im : PILImage) : PILImage := { im with mode := PixMode.rgb }

/-- Model of Pillow `img.resize((w, h))`. -/
def resizeTo (im : PILImage) (w h : ℕ) : PILImage := { im with width := w, height := h }

/-- Nearest-integer rounding of `a / b` (half rounded up), used by the
thumbnail model. -/
def roundDiv (a b : ℕ) : ℕ := (2 * a + b) / (2 * b)

/-- Model of Pillow `img.thumbnail((bw, bh))`: a no-op when the image
already fits inside the box, otherwise an aspect-preserving downscale
so the result fits in the box (`thumbnail` never upscales): when
`bw/bh ≥ width/height` the height is pinned to `bh` and the width
rounded from the aspect ratio, else symmetrically. -/
def thumbnailTo (im : PILImage) (bw bh : ℕ) : PILImage :=
  if im.width ≤ bw ∧ im.height ≤ bh then im
  else if bh * im.width ≤ bw * im.height then
    { im with width := max 1 (roundDiv (bh * im.width) im.height), height := bh }
  else
    { im with width := bw, height := max 1 (roundDiv (bw * im.height) im.width) }

/-- Model of `Image.new("RGB", (w, h), fill)`. -/
def imageNewRGB (w h : ℕ) : PILImage := ⟨w, h, PixMode.rgb⟩

/-- Model of `canvas.paste(img, (x, y))`: mutates the canvas in place,
its size and mode are unchanged. -/
def pasteOn (canvas im : PILImage) : PILImage := canvas

/-- Model of `img.crop((l, t, r, b))`: the result is `(r - l) × (b - t)`. -/
def cropTo (im : PILImage) (l t r b : ℕ) : PILImage :=
  { im with width := r - l, height := b - t }

/-- The body of the `with Image.open(...)` block of `load_background`
after a successful decode: `convert("RGB")`, then the mode-dependent
rescale with `DISPLAY_SIZE = (480, 480)`; an unknown mode string leaves
the converted image as is. -/
def scale_background (img0 : PILImage) (mode : String) : PILImage :=
  let img := convertRGB img0
  if mode = "stretch" then resizeTo img 480 480
  else if mode = "fit" then
    let img1 := thumbnailTo img 480 480
    let canvas := imageNewRGB 480 480
    pasteOn canvas img1
  else if mode = "fill" then
    let img1 := thumbnailTo img 480 480
    if img1.width < 480 ∨ img1.height < 480 then resizeTo img1 480 480
    else
      let left := (img1.width - 480) / 2
      let top := (img1.height - 480) / 2
      cropTo img1 left top (left + 480) (top + 480)
  else img

/-- The module-level background cache: `_bg_image_cache` and
`_bg_image_cache_key` (at most one entry). -/
structure BgCache where
  cache : Option PILImage
  key : Option String
deriving DecidableEq

/-- `load_background(image_path, mode)` with the module cache passed
explicitly.  `decode` models the fallible `Image.open` + decode step
(`none` = the exception path: the `except` clause prints and returns
`None`, leaving the cache untouched).  The cache hit requires
`_bg_image_cache_key == cache_key and _bg_image_cache is not None`.
The trailing `ℕ` counts how many times the decode step ran during the
call. -/
def load_background (decode : String → Option PILImage) (st : BgCache)
    (image_path mode : String) : Option PILImage × BgCache × ℕ :=
  let cache_key := image_path ++ ":" ++ mode
  if st.key = some cache_key ∧ st.cache.isSome then (st.cache, st, 0)
  else
    match decode image_path with
    | none => (none, st, 1)
    | some src =>
      let img := scale_background src mode
      (some img, ⟨some img, some cache_key⟩, 1)

/-! ### Matrix temperature-box blend (`MatrixPreset.render`, overlay and
`Image.blend(img, overlay, 0.3)`) -/

/-- Model of one channel of Pillow `Image.blend(im1, im2, 0.3)`: the C
kernel computes `temp = in1 + alpha * (in2 - in1)`, clamps to
`[0, 255]` and truncates toward zero; with `alpha = 0.3` taken exactly
this is `(10*in1 + 3*(in2 - in1)) / 10` floored (the value is
nonnegative after clamping). -/
def blendChannel (a b : ℕ) : ℕ :=
  let temp10 : ℤ := 10 * (a : ℤ) + 3 * ((b : ℤ) - (a : ℤ))
  if temp10 ≤ 0 then 0 else if 2550 ≤ temp10 then 255 else (temp10 / 10).toNat

/-- Per-pixel blend of two RGB triples. -/
def blendPixel (p q : ℕ × ℕ × ℕ) : ℕ × ℕ × ℕ :=
  (blendChannel p.1 q.1, blendChannel p.2.1 q.2.1, blendChannel p.2.2 q.2.2)

/-- The overlay frame built in `render`: `Image.new("RGB", DISPLAY_SIZE,
(0, 0, 0))` with `overlay_draw.rectangle(bg_box, fill=(0, 30, 0))`;
Pillow's rectangle fill includes both corners, and the box corners may
be negative, hence `ℤ` coordinates. -/
def matrixOverlay (left top right bottom x y : ℤ) : ℕ × ℕ × ℕ :=
  if left ≤ x ∧ x ≤ right ∧ top ≤ y ∧ y ≤ bottom then (0, 30, 0) else (0, 0, 0)

/-- The whole-frame blend step `img = Image.blend(img, overlay, 0.3)`:
every pixel of the base frame is blended against the overlay pixel at
the same position. -/
def matrixBlendFrame (base : ℤ → ℤ → ℕ × ℕ × ℕ)
    (left top right bottom x y : ℤ) : ℕ × ℕ × ℕ :=
  blendPixel (base x y) (matrixOverlay left top right bottom x y)

/-! Helper lemmas about the framer. -/

theorem and255_eq_mod (n : ℕ) : n &&& 255 = n % 256 := by
  have h := Nat.and_pow_two_sub_one_eq_mod n 8
  norm_num at h
  exact h

theorem shift_and255 (n s : ℕ) : n >>> s &&& 255 = n / 2 ^ s % 256 := by
  rw [and255_eq_mod, Nat.shiftRight_eq_div_pow]

theorem buildVideoPacket_length (total seq : ℕ) (chunk : List ℕ)
    (h : chunk.length ≤ 1013) : (buildVideoPacket total seq chunk).length = 1024 := by
  simp [buildVideoPacket]
  omega

theorem sendLoop_nil (total seq : ℕ) : sendLoop total seq [] = [] := by
  rw [sendLoop]
  simp

theorem sendLoop_length (total : ℕ) :
    ∀ n (seq : ℕ) (rest : List ℕ), rest.length = n →
      (sendLoop total seq rest).length = (n + 1012) / 1013 := by
  intro n
  induction n using Nat.strong_induction_on with
  | _ n ih =>
    intro seq rest hlen
    rw [sendLoop]
    by_cases h : rest = []
    · subst h
      simp at hlen
      simp [dif_pos rfl, ← hlen]
    · rw [dif_neg h]
      have hpos : 0 < rest.length := List.length_pos.mpr h
      have hdrop : (rest.drop 1013).length = rest.length - 1013 := by simp
      by_cases hle : rest.length ≤ 1013
      · have hnil : rest.drop 1013 = [] := List.drop_of_length_le (by omega)
        rw [hnil, sendLoop_nil]
        simp only [List.length_cons, List.length_nil]
        omega
      · have hrec := ih (rest.length - 1013) (by omega) (seq + 1) (rest.drop 1013) hdrop
        simp only [List.length_cons, hrec]
        omega

theorem sendLoop_getD (total : ℕ) :
    ∀ n (seq : ℕ) (rest : List ℕ), rest.length = n →
      ∀ k, k < (sendLoop total seq rest).length →
        (sendLoop total seq rest).getD k [] =
          buildVideoPacket total (seq + k) ((rest.drop (1013 * k)).take 1013) := by
  intro n
  induction n using Nat.strong_induction_on with
  | _ n ih =>
    intro seq rest hlen k hk
    rw [sendLoop] at hk ⊢
    by_cases h : rest = []
    · simp [dif_pos h] at hk
    · rw [dif_neg h] at hk ⊢
      have hpos : 0 < rest.length := List.length_pos.mpr h
      cases k with
      | zero => simp
      | succ k =>
        simp only [List.length_cons] at hk
        have hdrop : (rest.drop 1013).length = rest.length - 1013 := by simp
        have hrec := ih (rest.length - 1013) (by omega) (seq + 1) (rest.drop 1013) hdrop
          k (by omega)
        simp only [List.getD_cons_succ, hrec, List.drop_drop]
        have h1 : seq + 1 + k = seq + (k + 1) := by omega
        have h2 : 1013 + 1013 * k = 1013 * (k + 1) := by ring
        rw [h1, h2]

theorem chunk_len_fields (total seq : ℕ) (chunk : List ℕ) (h : chunk.length ≤ 1013) :
    decodeBE2 (buildVideoPacket total seq chunk) 9 = chunk.length := by
  simp only [decodeBE2, buildVideoPacket, List.cons_append, List.nil_append, List.getD]
  simp [List.getElem?_cons_succ, List.getElem?_cons_zero, shift_and255, and255_eq_mod]
  omega

theorem chunkPayload_buildVideoPacket (total seq : ℕ) (chunk : List ℕ)
    (h : chunk.length ≤ 1013) :
    chunkPayload (buildVideoPacket total seq chunk) = chunk := by
  rw [chunkPayload, chunk_len_fields total seq chunk h]
  have hdrop : (buildVideoPacket total seq chunk).drop 11 =
      chunk ++ List.replicate (1024 - 11 - chunk.length) 0 := by
    simp only [buildVideoPacket]
    rw [List.drop_append_of_le_length (by simp)]
    simp
  rw [hdrop, List.take_append_of_le_length (le_refl _), List.take_length]

theorem sendLoop_join (total : ℕ) :
    ∀ n (seq : ℕ) (rest : List ℕ), rest.length = n →
      ((sendLoop total seq rest).map chunkPayload).flatten = rest := by
  intro n
  induction n using Nat.strong_induction_on with
  | _ n ih =>
    intro seq rest hlen
    rw [sendLoop]
    by_cases h : rest = []
    · simp [dif_pos h, h]
    · rw [dif_neg h]
      have hpos : 0 < rest.length := List.length_pos.mpr h
      have hdrop : (rest.drop 1013).length = rest.length - 1013 := by simp
      have hrec := ih (rest.length - 1013) (by omega) (seq + 1) (rest.drop 1013) hdrop
      simp only [List.map_cons, List.flatten_cons, hrec]
      rw [chunkPayload_buildVideoPacket total seq _ (by simp)]
      exact List.take_append_drop 1013 rest

theorem getD_replicate_zero (n m : ℕ) : (List.replicate m (0 : ℕ)).getD n 0 = 0 := by
  rw [List.getD, List.get?_eq_getElem?]
  rcases Nat.lt_or_ge n m with h | h
  · simp [List.getElem?_replicate, h]
  · rw [List.getElem?_eq_none (by simpa using h)]
    rfl

theorem buildVideoPacket_getD_payload (total seq : ℕ) (chunk : List ℕ) (j : ℕ) :
    (buildVideoPacket total seq chunk).getD (11 + j) 0 =
      (chunk ++ List.replicate (1024 - 11 - chunk.length) 0).getD j 0 := by
  rw [buildVideoPacket, List.append_assoc]
  rw [List.getD, List.getD, List.get?_append_right (by simp)]
  simp

theorem buildVideoPacket_payload_bytes (total seq : ℕ) (chunk : List ℕ) (j : ℕ)
    (hj : j < chunk.length) :
    (buildVideoPacket total seq chunk).getD (11 + j) 0 = chunk.getD j 0 := by
  rw [buildVideoPacket_getD_payload]
  rw [List.getD, List.getD, List.get?_append hj]

theorem buildVideoPacket_zero_padding (total seq : ℕ) (chunk : List ℕ) (j : ℕ)
    (hj : 11 + chunk.length ≤ j) :
    (buildVideoPacket total seq chunk).getD j 0 = 0 := by
  obtain ⟨j', rfl⟩ : ∃ j', j = 11 + j' := ⟨j - 11, by omega⟩
  rw [buildVideoPacket_getD_payload]
  rw [List.getD, List.get?_append_right (by omega)]
  have h := getD_replicate_zero (j' - chunk.length) (1024 - 11 - chunk.length)
  simpa [List.getD] using h

theorem buildVideoPacket_header_bytes (total seq : ℕ) (chunk : List ℕ) :
    (buildVideoPacket total seq chunk).getD 0 0 = 2 ∧
      (buildVideoPacket total seq chunk).getD 1 0 = 13 := by
  constructor <;> simp [buildVideoPacket, List.getD]

theorem buildVideoPacket_total_field (total seq : ℕ) (chunk : List ℕ)
    (h : total < 4294967296) :
    decodeBE4 (buildVideoPacket total seq chunk) 2 = total := by
  simp only [decodeBE4, buildVideoPacket, List.cons_append, List.nil_append, List.getD]
  simp [List.getElem?_cons_succ, List.getElem?_cons_zero, shift_and255, and255_eq_mod]
  omega

theorem buildVideoPacket_seq_field (total seq : ℕ) (chunk : List ℕ)
    (h : seq < 16777216) :
    decodeBE3 (buildVideoPacket total seq chunk) 6 = seq := by
  simp only [decodeBE3, buildVideoPacket, List.cons_append, List.nil_append, List.getD]
  simp [List.getElem?_cons_succ, List.getElem?_cons_zero, shift_and255, and255_eq_mod]
  omega

theorem send_h264_frame_length (data : List ℕ) :
    (send_h264_frame data).length = (data.length + 1012) / 1013 :=
  sendLoop_length data.length data.length 0 data rfl

theorem send_h264_frame_getD (data : List ℕ) (k : ℕ)
    (hk : k < (send_h264_frame data).length) :
    (send_h264_frame data).getD k [] =
      buildVideoPacket data.length k ((data.drop (1013 * k)).take 1013) := by
  simpa using sendLoop_getD data.length data.length 0 data rfl k hk

end GLC

/-! ### Claim theorems -/

/-- C1: for every payload of `N` bytes, `send_h264_frame` emits exactly
`ceil(N/1013)` packets (none when `N = 0`), each 1024 bytes long; the
`k`-th emitted packet is built with sequence number `k` (ascending from
0, no gaps) over the chunk `data[1013k : 1013k + 1013]`; every chunk
except possibly the last has length exactly 1013; and concatenating the
chunk payloads (bytes `11..11+L-1`, `L` the length field at bytes 9-10)
in emission order reconstructs the payload exactly. -/
theorem C1_send_h264_frame_framing (data : List ℕ) :
    (GLC.send_h264_frame data).length = (data.length + 1012) / 1013 ∧
    (data = [] → GLC.send_h264_frame data = []) ∧
    (∀ pkt ∈ GLC.send_h264_frame data, pkt.length = 1024) ∧
    (∀ k, k < (GLC.send_h264_frame data).length →
      (GLC.send_h264_frame data).getD k [] =
        GLC.buildVideoPacket data.length k ((data.drop (1013 * k)).take 1013)) ∧
    (∀ k, k + 1 < (GLC.send_h264_frame data).length →
      GLC.decodeBE2 ((GLC.send_h264_frame data).getD k []) 9 = 1013) ∧
    ((GLC.send_h264_frame data).map GLC.chunkPayload).flatten = data := by
  have hlen : (GLC.send_h264_frame data).length = (data.length + 1012) / 1013 :=
    GLC.send_h264_frame_length data
  have hget : ∀ k, k < (GLC.send_h264_frame data).length →
      (GLC.send_h264_frame data).getD k [] =
        GLC.buildVideoPacket data.length k ((data.drop (1013 * k)).take 1013) :=
    fun k hk => GLC.send_h264_frame_getD data k hk
  refine ⟨hlen, ?_, ?_, hget, ?_, ?_⟩
  · intro h
    subst h
    rw [GLC.send_h264_frame, GLC.sendLoop]
    simp
  · intro pkt hpkt
    obtain ⟨k, hk, hkeq⟩ := List.getElem_of_mem hpkt
    have hgd : (GLC.send_h264_frame data).getD k [] = pkt := by
      rw [List.getD_eq_getElem _ _ hk, hkeq]
    rw [← hgd, hget k hk]
    exact GLC.buildVideoPacket_length _ _ _ (by simp)
  · intro k hk
    rw [hget k (by omega)]
    rw [GLC.chunk_len_fields _ _ _ (by simp)]
    -- a non-final chunk has exactly 1013 bytes
    have hlen2 : ((data.drop (1013 * k)).take 1013).length =
        min 1013 (data.length - 1013 * k) := by simp
    rw [hlen2]
    have : k + 1 < (data.length + 1012) / 1013 := by omega
    have hbound : 1013 * (k + 1) + 1 ≤ data.length := by omega
    omega
  · exact GLC.sendLoop_join data.length data.length 0 data rfl

/-- Witness for C1 at a concrete 3-byte payload (one packet). -/
theorem C1_send_h264_frame_framing_witness :
    ((GLC.send_h264_frame [1, 2, 3]).map GLC.chunkPayload).flatten = [1, 2, 3] ∧
    (GLC.send_h264_frame [1, 2, 3]).length = 1 :=
  ⟨(C1_send_h264_frame_framing [1, 2, 3]).2.2.2.2.2,
   by rw [(C1_send_h264_frame_framing [1, 2, 3]).1]; decide⟩

/-- C2: every packet `send_h264_frame` builds for a chunk of length `L`
with sequence number `k` (for `N < 2^32` and fewer than `2^24` chunks)
is 1024 bytes with byte 0 = 0x02, byte 1 = 0x0D, bytes 2-5 the total
payload length `N` big-endian (the same in every packet, never the
chunk length), bytes 6-8 the sequence number `k` big-endian, bytes 9-10
the chunk length `L` big-endian, bytes `11..11+L-1` the chunk, and
every remaining byte up to offset 1023 zero. -/
theorem C2_video_packet_layout (data : List ℕ) (k : ℕ)
    (hk : k < (GLC.send_h264_frame data).length)
    (hN : data.length < 4294967296)
    (hc : (GLC.send_h264_frame data).length < 16777216) :
    ((GLC.send_h264_frame data).getD k []).length = 1024 ∧
    ((GLC.send_h264_frame data).getD k []).getD 0 0 = 2 ∧
    ((GLC.send_h264_frame data).getD k []).getD 1 0 = 13 ∧
    GLC.decodeBE4 ((GLC.send_h264_frame data).getD k []) 2 = data.length ∧
    GLC.decodeBE3 ((GLC.send_h264_frame data).getD k []) 6 = k ∧
    GLC.decodeBE2 ((GLC.send_h264_frame data).getD k []) 9 =
      ((data.drop (1013 * k)).take 1013).length ∧
    (∀ j, j < ((data.drop (1013 * k)).take 1013).length →
      ((GLC.send_h264_frame data).getD k []).getD (11 + j) 0 =
        ((data.drop (1013 * k)).take 1013).getD j 0) ∧
    (∀ j, 11 + ((data.drop (1013 * k)).take 1013).length ≤ j →
      ((GLC.send_h264_frame data).getD k []).getD j 0 = 0) := by
  have hget : (GLC.send_h264_frame data).getD k [] =
      GLC.buildVideoPacket data.length k ((data.drop (1013 * k)).take 1013) :=
    GLC.send_h264_frame_getD data k hk
  have hchunk : ((data.drop (1013 * k)).take 1013).length ≤ 1013 := by simp
  rw [hget]
  refine ⟨GLC.buildVideoPacket_length _ _ _ hchunk,
    (GLC.buildVideoPacket_header_bytes _ _ _).1,
    (GLC.buildVideoPacket_header_bytes _ _ _).2,
    GLC.buildVideoPacket_total_field _ _ _ hN,
    GLC.buildVideoPacket_seq_field _ _ _ (by omega),
    GLC.chunk_len_fields _ _ _ hchunk,
    fun j hj => GLC.buildVideoPacket_payload_bytes _ _ _ j hj,
    fun j hj => GLC.buildVideoPacket_zero_padding _ _ _ j hj⟩

/-- Witness for C2: the single packet of a concrete 3-byte payload. -/
theorem C2_video_packet_layout_witness :
    GLC.decodeBE3 ((GLC.send_h264_frame [5, 6, 7]).getD 0 []) 6 = 0 ∧
    GLC.decodeBE4 ((GLC.send_h264_frame [5, 6, 7]).getD 0 []) 2 = 3 ∧
    ((GLC.send_h264_frame [5, 6, 7]).getD 0 []).length = 1024 := by
  have hk : 0 < (GLC.send_h264_frame [5, 6, 7]).length := by
    rw [GLC.send_h264_frame_length]
    decide
  have hc : (GLC.send_h264_frame [5, 6, 7]).length < 16777216 := by
    rw [GLC.send_h264_frame_length]
    decide
  have h := C2_video_packet_layout [5, 6, 7] 0 hk (by decide) hc
  exact ⟨h.2.2.2.2.1, by rw [h.2.2.2.1]; decide, h.1⟩

namespace GLC

theorem updateColumns_length (rand_char : ℕ → Char) (rand_speed : ℕ → ℚ)
    (cols : List MColumn) :
    (updateColumns rand_char rand_speed cols).length = cols.length := by
  simp [updateColumns]

theorem updateColumns_getD (rand_char : ℕ → Char) (rand_speed : ℕ → ℚ)
    (cols : List MColumn) (i : ℕ) (hi : i < cols.length) :
    (updateColumns rand_char rand_speed cols).getD i default =
      updateColumn (rand_char i) (rand_speed i) (cols.getD i default) := by
  have hlen : i < (updateColumns rand_char rand_speed cols).length := by
    rw [updateColumns_length]
    exact hi
  rw [List.getD_eq_getElem _ _ hlen, List.getD_eq_getElem _ _ hi]
  simp [updateColumns, List.getElem_mapIdx]

end GLC

/-- C3 counterexample: a column at `y = 580` with speed 1 advances to
581 > 580 and is reset; the code's reset assigns the constant
`y = -200`, whereas the claim's "new random start y in [-200, 0)" takes
a fresh RNG draw — with the pending draw being `-50 ∈ [-200, 0)` the
code and the claimed behaviour disagree on the resulting `y`. -/
theorem C3_matrix_reset_counterexample :
    (GLC.updateColumn 'b' 2 ⟨580, 'a', 1, 255, 5⟩).y = -200 ∧
    (GLC.updateColumnSpec (-50) 'b' 2 ⟨580, 'a', 1, 255, 5⟩).y = -50 ∧
    ((-200 : ℚ) ≤ -50 ∧ (-50 : ℚ) < 0) ∧
    (GLC.updateColumn 'b' 2 ⟨580, 'a', 1, 255, 5⟩).y ≠
      (GLC.updateColumnSpec (-50) 'b' 2 ⟨580, 'a', 1, 255, 5⟩).y := by
  refine ⟨?_, ?_, by norm_num, ?_⟩ <;>
    norm_num [GLC.updateColumn, GLC.updateColumnSpec]

/-- C3 amended: in the column pass of `MatrixPreset.render`, each
column `i` is updated from its own state alone: after advancing `y` by
`speed` the column is reset iff the advanced `y` exceeds
`height + 100 = 580`; the reset assigns `y := -200` exactly (the bottom
of the spec's `[-200, 0)` range, not a fresh random draw), a fresh
random glyph and a fresh random speed from the RNG, and leaves
`brightness` and `trail_length` untouched; a column whose advanced `y`
does not exceed 580 merely advances, and no column's update reads or
writes any other column's fields. -/
theorem C3_matrix_column_update (rand_char : ℕ → Char) (rand_speed : ℕ → ℚ)
    (cols : List GLC.MColumn) (i : ℕ) (hi : i < cols.length) :
    (GLC.updateColumns rand_char rand_speed cols).length = cols.length ∧
    ((cols.getD i default).y + (cols.getD i default).speed > 580 →
      (GLC.updateColumns rand_char rand_speed cols).getD i default =
        { cols.getD i default with
            y := -200, char := rand_char i, speed := rand_speed i }) ∧
    (¬ (cols.getD i default).y + (cols.getD i default).speed > 580 →
      (GLC.updateColumns rand_char rand_speed cols).getD i default =
        { cols.getD i default with
            y := (cols.getD i default).y + (cols.getD i default).speed }) := by
  refine ⟨GLC.updateColumns_length rand_char rand_speed cols, ?_, ?_⟩
  · intro h
    rw [GLC.updateColumns_getD rand_char rand_speed cols i hi, GLC.updateColumn]
    exact if_pos h
  · intro h
    rw [GLC.updateColumns_getD rand_char rand_speed cols i hi, GLC.updateColumn]
    exact if_neg h

/-- Witness for C3 (amended): a two-column state where column 0
overflows; its reset produces exactly `y = -200` with the oracle's
glyph and speed, preserving brightness and trail length. -/
theorem C3_matrix_column_update_witness :
    (GLC.updateColumns (fun _ => 'z') (fun _ => 2)
        [⟨580, 'a', 1, 255, 5⟩, ⟨0, 'c', 1, 200, 7⟩]).getD 0 default =
      (⟨-200, 'z', 2, 255, 5⟩ : GLC.MColumn) := by
  have h := C3_matrix_column_update (fun _ => 'z') (fun _ => 2)
    [⟨580, 'a', 1, 255, 5⟩, ⟨0, 'c', 1, 200, 7⟩] 0 (by decide)
  rw [h.2.1 (by norm_num)]
  rfl

/-- C4: for every segment index `i ≤ 7`, every CPU load, frame count,
fps and sine oracle, `_calculate_pulse_intensity` equals
`clamp01(min(1.2, load/80) · pulseWave(i) · centerBoost(i))` with
`pulseWave(i) = (sin(phase + 0.4·i)+1)/2`,
`phase = (frameCount/fps)·pulseSpeed`, `pulseSpeed = 2 + (load/100)·4`,
`centerBoost(i) = 1 − (i/8)·0.4`; and the intensity always lies in
`[0, 1]`. -/
theorem C4_heartbeat_pulse_intensity (sinq : ℚ → ℚ) (fps : ℚ) (frame_count : ℕ)
    (i : ℕ) (load : ℚ) (hi : i ≤ 7) :
    GLC.calculate_pulse_intensity sinq fps frame_count i load =
      GLC.pulseIntensitySpec sinq fps frame_count load i ∧
    0 ≤ GLC.calculate_pulse_intensity sinq fps frame_count i load ∧
    GLC.calculate_pulse_intensity sinq fps frame_count i load ≤ 1 := by
  refine ⟨?_, ?_, ?_⟩
  · have hsin : (i : ℚ) * (4 / 10) = 4 / 10 * (i : ℚ) := by ring
    simp only [GLC.calculate_pulse_intensity, GLC.pulseIntensitySpec, GLC.clamp01,
      GLC.segment_count, hsin]
    congr 2
    push_cast
    ring
  · simp only [GLC.calculate_pulse_intensity]
    exact le_max_left 0 _
  · simp only [GLC.calculate_pulse_intensity]
    exact max_le (by norm_num) (min_le_left 1 _)

/-- Witness for C4 at `sin ≡ 0`, `fps = 10`, frame 0, segment 3,
load 50. -/
theorem C4_heartbeat_pulse_intensity_witness :
    GLC.calculate_pulse_intensity (fun _ => 0) 10 0 3 50 =
      GLC.pulseIntensitySpec (fun _ => 0) 10 0 50 3 ∧
    0 ≤ GLC.calculate_pulse_intensity (fun _ => 0) 10 0 3 50 ∧
    GLC.calculate_pulse_intensity (fun _ => 0) 10 0 3 50 ≤ 1 :=
  C4_heartbeat_pulse_intensity (fun _ => 0) 10 0 3 50 (by decide)

/-- C5 counterexample: with raw readings `0.0` then `10.0`, the second
reading (a reading after the first) wholesale-replaces the filter state
with the raw sample (result 10) instead of smoothing
(`0.7·0 + 0.3·10 = 3`): the `== 0.0` sentinel fires on any reading
whose previous state is zero, not only on the first. -/
theorem C5_cpu_smoothing_counterexample :
    GLC.cpuSmoothTrace [0, 10] = 10 ∧
    7 / 10 * GLC.cpuSmoothTrace [0] + 3 / 10 * 10 = (3 : ℚ) ∧
    GLC.cpuSmoothTrace [0, 10] ≠ 7 / 10 * GLC.cpuSmoothTrace [0] + 3 / 10 * 10 := by
  refine ⟨?_, ?_, ?_⟩ <;> norm_num [GLC.cpuSmoothTrace, GLC.cpuSmoothStep]

/-- C5 amended: across the process-lifetime sequence of readings, the
filter computes `smoothed = 0.7·previous + 0.3·raw` on every reading
whose previous state is nonzero, and wholesale replacement by the raw
sample happens exactly on readings whose previous state equals `0.0` —
that is always the case on the first reading (the state is seeded at
0.0), but also on any later reading whose previous smoothed value is
0.0; the state persists across composer invocations (the fold carries
it from one reading to the next). -/
theorem C5_cpu_smoothing_amended (raws : List ℚ) (raw : ℚ) :
    (GLC.cpuSmoothTrace raws ≠ 0 →
      GLC.cpuSmoothTrace (raws ++ [raw]) =
        7 / 10 * GLC.cpuSmoothTrace raws + 3 / 10 * raw) ∧
    (GLC.cpuSmoothTrace raws = 0 →
      GLC.cpuSmoothTrace (raws ++ [raw]) = raw) := by
  have h : GLC.cpuSmoothTrace (raws ++ [raw]) =
      GLC.cpuSmoothStep (GLC.cpuSmoothTrace raws) raw := by
    simp [GLC.cpuSmoothTrace, List.foldl_append]
  constructor
  · intro hne
    rw [h, GLC.cpuSmoothStep, if_neg hne]
  · intro heq
    rw [h, GLC.cpuSmoothStep, if_pos heq]

/-- Witness for C5 (amended): previous state 5 (nonzero), raw 10:
the next state is `0.7·5 + 0.3·10`. -/
theorem C5_cpu_smoothing_amended_witness :
    GLC.cpuSmoothTrace ([5] ++ [10]) =
      7 / 10 * GLC.cpuSmoothTrace [5] + 3 / 10 * 10 :=
  (C5_cpu_smoothing_amended [5] 10).1
    (by norm_num [GLC.cpuSmoothTrace, GLC.cpuSmoothStep])

namespace GLC

theorem set_rgb_color_eq (r g b : ℕ) :
    set_rgb_color r g b =
      [0x01, 0x83, 0, 0, 0, 19, 0, 3, 4, 0, r, g, b] ++ List.replicate 51 0 := rfl

theorem thumbnailTo_mode (im : PILImage) (bw bh : ℕ) :
    (thumbnailTo im bw bh).mode = im.mode := by
  rw [thumbnailTo]
  split_ifs <;> rfl

end GLC

/-- C6: `set_rgb_color` for RGB `(0, 255, 200)` yields exactly 64 bytes
with byte0 = 0x01, byte1 = 0x83, byte5 = 0x13, bytes 6-9 =
`00 03 04 00`, bytes 10-12 = `00 FF C8` and every other byte zero; and
for every `(r, g, b)` with each component in `0..255`, bytes 10, 11, 12
are `r`, `g`, `b` and all bytes outside offsets 0, 1, 5, 6-9, 10-12 are
zero. -/
theorem C6_set_rgb_color_layout (r g b : ℕ) (hr : r < 256) (hg : g < 256)
    (hb : b < 256) :
    GLC.set_rgb_color 0 255 200 =
      [0x01, 0x83, 0, 0, 0, 0x13, 0, 3, 4, 0, 0, 0xFF, 0xC8] ++ List.replicate 51 0 ∧
    (GLC.set_rgb_color r g b).length = 64 ∧
    (GLC.set_rgb_color r g b).getD 10 0 = r ∧
    (GLC.set_rgb_color r g b).getD 11 0 = g ∧
    (GLC.set_rgb_color r g b).getD 12 0 = b ∧
    (∀ j, j < 64 → j ∉ ([0, 1, 5, 6, 7, 8, 9, 10, 11, 12] : List ℕ) →
      (GLC.set_rgb_color r g b).getD j 0 = 0) := by
  rw [GLC.set_rgb_color_eq, GLC.set_rgb_color_eq]
  refine ⟨rfl, by simp, rfl, rfl, rfl, ?_⟩
  intro j hj hmem
  interval_cases j <;> first | exact absurd (by decide) hmem | rfl

/-- Witness for C6 at RGB `(10, 20, 30)`. -/
theorem C6_set_rgb_color_layout_witness :
    (GLC.set_rgb_color 10 20 30).length = 64 ∧
    (GLC.set_rgb_color 10 20 30).getD 10 0 = 10 ∧
    (GLC.set_rgb_color 10 20 30).getD 12 0 = 30 ∧
    (GLC.set_rgb_color 10 20 30).getD 13 0 = 0 :=
  ⟨(C6_set_rgb_color_layout 10 20 30 (by decide) (by decide) (by decide)).2.1,
   (C6_set_rgb_color_layout 10 20 30 (by decide) (by decide) (by decide)).2.2.1,
   (C6_set_rgb_color_layout 10 20 30 (by decide) (by decide) (by decide)).2.2.2.2.1,
   (C6_set_rgb_color_layout 10 20 30 (by decide) (by decide) (by decide)).2.2.2.2.2
     13 (by decide) (by decide)⟩

/-- C7: for every source image that decodes and every mode in
{stretch, fit, fill}, `load_background`'s rescale produces a raster
that is exactly 480 × 480 and 3-channel RGB (no alpha), whatever the
source size or aspect ratio. -/
theorem C7_load_background_dims (src : GLC.PILImage) (mode : String)
    (hm : mode = "stretch" ∨ mode = "fit" ∨ mode = "fill") :
    (GLC.scale_background src mode).width = 480 ∧
    (GLC.scale_background src mode).height = 480 ∧
    (GLC.scale_background src mode).mode = GLC.PixMode.rgb := by
  rcases hm with h | h | h <;> subst h
  · simp [GLC.scale_background, GLC.resizeTo, GLC.convertRGB]
  · simp [GLC.scale_background, GLC.pasteOn, GLC.imageNewRGB]
  · simp only [GLC.scale_background]
    norm_num
    by_cases hwh : (GLC.thumbnailTo (GLC.convertRGB src) 480 480).width < 480 ∨
        (GLC.thumbnailTo (GLC.convertRGB src) 480 480).height < 480
    · rw [if_pos hwh]
      refine ⟨rfl, rfl, ?_⟩
      rw [GLC.resizeTo]
      exact GLC.thumbnailTo_mode (GLC.convertRGB src) 480 480
    · rw [if_neg hwh]
      refine ⟨by simp [GLC.cropTo], by simp [GLC.cropTo], ?_⟩
      rw [GLC.cropTo]
      exact GLC.thumbnailTo_mode (GLC.convertRGB src) 480 480

/-- Witness for C7: an 800 × 600 palette image in `fill` mode comes out
480 × 480 RGB. -/
theorem C7_load_background_dims_witness :
    (GLC.scale_background ⟨800, 600, GLC.PixMode.pal⟩ "fill").width = 480 ∧
    (GLC.scale_background ⟨800, 600, GLC.PixMode.pal⟩ "fill").height = 480 ∧
    (GLC.scale_background ⟨800, 600, GLC.PixMode.pal⟩ "fill").mode = GLC.PixMode.rgb :=
  C7_load_background_dims ⟨800, 600, GLC.PixMode.pal⟩ "fill" (Or.inr (Or.inr rfl))

/-- C8: if a `load_background` call returns a raster, then a second
call with the same `(path, mode)` — whatever the decoder would now do —
returns the bit-identical raster and the unchanged cache state, and
runs the decode/rescale step zero times: it is served entirely from the
single cached entry keyed by `path:mode`. -/
theorem C8_load_background_cache (decode decode2 : String → Option GLC.PILImage)
    (st st1 : GLC.BgCache) (path mode : String) (img : GLC.PILImage) (n : ℕ)
    (h : GLC.load_background decode st path mode = (some img, st1, n)) :
    GLC.load_background decode2 st1 path mode = (some img, st1, 0) := by
  simp only [GLC.load_background] at h ⊢
  split at h
  case isTrue hc =>
    injection h with h1 h'
    injection h' with h2 h3
    subst h2
    rw [if_pos hc, h1]
  case isFalse hc =>
    rcases hd : decode path with _ | src
    · rw [hd] at h
      simp at h
    · rw [hd] at h
      injection h with h1 h'
      injection h' with h2 h3
      subst h2
      rw [if_pos ⟨rfl, rfl⟩]
      rw [← h1]

/-- Witness for C8: a first call on an empty cache loads and caches a
480 × 480 source; the repeat call (with a decoder that would now fail)
returns the same raster from the cache with zero decodes. -/
theorem C8_load_background_cache_witness :
    GLC.load_background (fun _ => none)
        ⟨some ⟨480, 480, GLC.PixMode.rgb⟩, some "bg.png:fill"⟩ "bg.png" "fill" =
      (some ⟨480, 480, GLC.PixMode.rgb⟩,
        ⟨some ⟨480, 480, GLC.PixMode.rgb⟩, some "bg.png:fill"⟩, 0) :=
  C8_load_background_cache (fun _ => some ⟨480, 480, GLC.PixMode.rgb⟩) (fun _ => none)
    ⟨none, none⟩ ⟨some ⟨480, 480, GLC.PixMode.rgb⟩, some "bg.png:fill"⟩
    "bg.png" "fill" ⟨480, 480, GLC.PixMode.rgb⟩ 1 (by decide)

/-- C9: when the decode step fails on a cache miss, `load_background`
returns `None` (the exception is caught, not propagated) and leaves the
cache state unchanged; any previously cached successful entry remains
available — a call with the cached key still returns it with zero
decodes — and the failing call did attempt the load (one decode). -/
theorem C9_load_background_failure (decode : String → Option GLC.PILImage)
    (st : GLC.BgCache) (path mode : String)
    (hmiss : ¬ (st.key = some (path ++ ":" ++ mode) ∧ st.cache.isSome))
    (hfail : decode path = none) :
    GLC.load_background decode st path mode = (none, st, 1) ∧
    (∀ p m img, st.key = some (p ++ ":" ++ m) → st.cache = some img →
      GLC.load_background decode st p m = (some img, st, 0)) := by
  constructor
  · simp only [GLC.load_background]
    rw [if_neg hmiss, hfail]
  · intro p m img hk hcache
    simp only [GLC.load_background]
    rw [if_pos ⟨hk, by rw [hcache]; rfl⟩, hcache]

/-- Witness for C9: a cache holding `a.png:fit` survives a failing load
of `b.png:fill` and is still served afterwards. -/
theorem C9_load_background_failure_witness :
    GLC.load_background (fun _ => none)
        ⟨some ⟨480, 480, GLC.PixMode.rgb⟩, some "a.png:fit"⟩ "b.png" "fill" =
      (none, ⟨some ⟨480, 480, GLC.PixMode.rgb⟩, some "a.png:fit"⟩, 1) ∧
    GLC.load_background (fun _ => none)
        ⟨some ⟨480, 480, GLC.PixMode.rgb⟩, some "a.png:fit"⟩ "a.png" "fit" =
      (some ⟨480, 480, GLC.PixMode.rgb⟩,
        ⟨some ⟨480, 480, GLC.PixMode.rgb⟩, some "a.png:fit"⟩, 0) := by
  have h := C9_load_background_failure (fun _ => none)
    ⟨some ⟨480, 480, GLC.PixMode.rgb⟩, some "a.png:fit"⟩ "b.png" "fill"
    (by decide) rfl
  exact ⟨h.1, h.2 "a.png" "fit" ⟨480, 480, GLC.PixMode.rgb⟩ rfl rfl⟩

namespace GLC

theorem blendChannel_black (v : ℕ) (hv : v ≤ 255) :
    blendChannel v 0 = 7 * v / 10 := by
  rw [blendChannel]
  split_ifs with h1 h2 <;> push_cast at h1 <;> omega

theorem blendChannel_black_lt (v : ℕ) (hv1 : 1 ≤ v) (hv : v ≤ 255) :
    blendChannel v 0 < v := by
  rw [blendChannel_black v hv]
  omega

end GLC

/-- C10: the 0.3 blend for the temperature backing box is applied by
`Image.blend` to the whole frame against an overlay that is black
outside the box; so every pixel outside the box has each channel scaled
to 70 % of its drawn value (floor of `0.7·v`, matching Pillow's
truncating C kernel), e.g. trail green `(0, 255, 0)` comes out
`(0, 178, 0)`, and no non-black pixel outside the box keeps its
pre-blend value. -/
theorem C10_matrix_blend_outside_box (base : ℤ → ℤ → ℕ × ℕ × ℕ)
    (left top right bottom x y : ℤ) (r g b : ℕ)
    (hbase : base x y = (r, g, b))
    (hout : ¬ (left ≤ x ∧ x ≤ right ∧ top ≤ y ∧ y ≤ bottom))
    (hr : r ≤ 255) (hg : g ≤ 255) (hb : b ≤ 255) :
    GLC.matrixBlendFrame base left top right bottom x y =
      (7 * r / 10, 7 * g / 10, 7 * b / 10) ∧
    GLC.blendChannel 255 0 = 178 ∧
    GLC.matrixBlendFrame (fun _ _ => (0, 255, 0)) left top right bottom x y =
      (0, 178, 0) ∧
    ((r, g, b) ≠ ((0, 0, 0) : ℕ × ℕ × ℕ) →
      GLC.matrixBlendFrame base left top right bottom x y ≠ (r, g, b)) := by
  have hover : GLC.matrixOverlay left top right bottom x y = (0, 0, 0) := by
    rw [GLC.matrixOverlay, if_neg hout]
  have hmain : GLC.matrixBlendFrame base left top right bottom x y =
      (7 * r / 10, 7 * g / 10, 7 * b / 10) := by
    rw [GLC.matrixBlendFrame, hover, hbase, GLC.blendPixel]
    simp only []
    rw [GLC.blendChannel_black r hr, GLC.blendChannel_black g hg,
      GLC.blendChannel_black b hb]
  refine ⟨hmain, by decide, ?_, ?_⟩
  · rw [GLC.matrixBlendFrame, hover, GLC.blendPixel]
    decide
  · intro hnz heq
    rw [hmain] at heq
    injection heq with h1 h'
    injection h' with h2 h3
    apply hnz
    have : r = 0 ∧ g = 0 ∧ b = 0 := by omega
    simp [this.1, this.2.1, this.2.2]

/-- Witness for C10 at pixel `(0, 0)` outside box `[100, 300]²` over a
uniformly bright-green base. -/
theorem C10_matrix_blend_outside_box_witness :
    GLC.matrixBlendFrame (fun _ _ => (0, 255, 0)) 100 100 300 300 0 0 =
      (7 * 0 / 10, 7 * 255 / 10, 7 * 0 / 10) ∧
    GLC.matrixBlendFrame (fun _ _ => (0, 255, 0)) 100 100 300 300 0 0 ≠
      (0, 255, 0) := by
  have h := C10_matrix_blend_outside_box (fun _ _ => (0, 255, 0))
    100 100 300 300 0 0 0 255 0 rfl (by decide) (by decide) (by decide) (by decide)
  exact ⟨h.1, h.2.2.2 (by decide)⟩
